import Mathlib

/-! Verification development for the skoots repository: shallow embeddings of
`skoots/lib/utils.py` and `skoots/lib/eval.py`, with theorems about the tiling
index computation, dtype normalization, tensor cropping, and the per-instance
baking step of the evaluation pipeline. -/

namespace Skoots

/-- Embedding of `torch.arange(0, stop, step)` for a positive `step` (the only
case reachable in `calculate_indexes` past its validity check): the multiples
of `step` from `0` up to but excluding `stop`. -/
def arangeZ (stop step : ℤ) : List ℤ :=
  (List.range ((stop.toNat + step.toNat - 1) / step.toNat)).map
    (fun i : ℕ => step * (i : ℤ))

/-- Consecutive pairs `(l[i-1], l[i])` of a list: exactly the pairs visited by
the loop `for i, z in enumerate(ind_list)` in `calculate_indexes`, which skips
`i = 0` and reads `ind_list[i - 1]` together with `ind_list[i]`. -/
def pairsList {α : Type} : List α → List (α × α)
  | a :: b :: rest => (a, b) :: pairsList (b :: rest)
  | _ => []

/-- Embedding of `skoots.lib.utils.calculate_indexes` (utils.py lines 107-164).
Windows are inclusive `(z1, z2)` index pairs.  The `RuntimeError` raised by
`torch.arange` for a non-positive step or inconsistent bounds (re-raised by the
`except` clause with a message about incorrect values) is the `Except.error`
branch; the `break` in the loop is `takeWhile`; the final window appended in
the `else` branch and the two windows of the empty-`ind` branch are written
exactly as in the source. -/
def calculate_indexes (pad_size eval_image_size image_shape padded_image_shape : ℤ) :
    Except String (List (ℤ × ℤ)) :=
  if eval_image_size + 2 * pad_size > image_shape then
    Except.ok [(0, image_shape - 1)]
  else if eval_image_size ≤ 0 ∨ image_shape < 0 then
    Except.error "Calculate_indexes has incorrect values"
  else
    let ind_list := arangeZ image_shape eval_image_size
    let ind := ((pairsList ind_list).map
        (fun q => (q.1, q.2 - 1 + 2 * pad_size))).takeWhile
      (fun w => decide (w.2 < padded_image_shape))
    if ind.isEmpty then
      Except.ok [(0, eval_image_size + pad_size * 2),
        (padded_image_shape - (eval_image_size + pad_size * 2), padded_image_shape)]
    else
      Except.ok (ind ++ [(padded_image_shape - (eval_image_size + pad_size * 2),
        padded_image_shape - 1)])

/-- Original-axis indices covered by the halo-trimmed interior of a window:
a window `(z1, z2)` (inclusive, in padded coordinates) is trimmed to
`[z1 + pad, z2 - pad]`, which corresponds to `[z1, z2 - 2 * pad]` on the
unpadded axis. -/
def trimmedCovers (pad_size : ℤ) (w : ℤ × ℤ) (i : ℤ) : Prop :=
  w.1 ≤ i ∧ i ≤ w.2 - 2 * pad_size

instance (pad_size : ℤ) (w : ℤ × ℤ) (i : ℤ) : Decidable (trimmedCovers pad_size w i) :=
  inferInstanceAs (Decidable (w.1 ≤ i ∧ i ≤ w.2 - 2 * pad_size))

/-- Embedding of `skoots.lib.utils.get_dtype_offset` (utils.py lines 167-201).
The Python dict lookup is the chain of equality tests in the dict's insertion
order; Python truthiness of `image_max` (both `None` and `0` are falsy) is the
`none` and `= 0` cases, which leave `scale = None`. -/
def get_dtype_offset (dtype : String) (image_max : Option ℚ) : Option ℚ :=
  if dtype = "uint16" then some (2 ^ 16)
  else if dtype = "uint8" then some (2 ^ 8)
  else if dtype = "uint12" then some (2 ^ 12)
  else if dtype = "float64" then some 1
  else
    match image_max with
    | none => none
    | some m => if m = 0 then none else if m ≤ 256 then some 256 else some m

/-- Split a shape list into its leading dimensions and its last three sizes
(`shape[-3]`, `shape[-2]`, `shape[-1]`); `none` when there are fewer than 3
dimensions, where the Python negative indexing would raise `IndexError`. -/
def splitLast3 (s : List ℕ) : Option (List ℕ × (ℕ × ℕ × ℕ)) :=
  match s.reverse with
  | d :: h :: w :: rest => some (rest.reverse, (w, h, d))
  | _ => none

/-- Shape semantics of `skoots.lib.utils._crop3d` (utils.py lines 204-218):
`img[..., x : x + w, y : y + h, z : z + d]` keeps all leading dimensions and
replaces each of the last three sizes `s` by the Python slice length
`min s (x + w) - min s x`.  For fewer than 3 dimensions (unreachable behind
the guard in `crop_to_identical_size`) it is the identity. -/
def _crop3d (shape : List ℕ) (x y z w h d : ℕ) : List ℕ :=
  match splitLast3 shape with
  | some (lead, (sw, sh, sd)) =>
      lead ++ [min sw (x + w) - min sw x, min sh (y + h) - min sh y,
        min sd (z + d) - min sd z]
  | none => shape

/-- Embedding of `skoots.lib.utils.crop_to_identical_size` (utils.py lines
239-255) at the level of tensor shapes: crop `a` to the last three sizes of
`b`, then crop `b` to the last three sizes of the cropped `a`.  A first
argument with fewer than 3 dimensions raises `RuntimeError` (source line 248);
reading `b.shape[-3]` on a `b` with fewer than 3 dimensions would raise
`IndexError`. -/
def crop_to_identical_size (a b : List ℕ) : Except String (List ℕ × List ℕ) :=
  if a.length < 3 then
    Except.error "Only supports tensors with minimum 3dimmensions and shape [..., X, Y, Z]"
  else
    match splitLast3 b with
    | none => Except.error "IndexError: tuple index out of range"
    | some (_, (bw, bh, bd)) =>
        let a2 := _crop3d a 0 0 0 bw bh bd
        match splitLast3 a2 with
        | none => Except.error "IndexError: tuple index out of range"
        | some (_, (aw, ah, ad)) => Except.ok (a2, _crop3d b 0 0 0 aw ah ad)

/-- Voxel coordinates of the 3-D label volume. -/
abbrev Vox := ℤ × ℤ × ℤ

/-- The voxels of the crop `mask[lo0:hi0, lo1:hi1, lo2:hi2]` (half-open
Python slices on each axis). -/
def cropCoords (lo hi : Vox) : Finset Vox :=
  (Finset.Ico lo.1 hi.1) ×ˢ ((Finset.Ico lo.2.1 hi.2.1) ×ˢ (Finset.Ico lo.2.2 hi.2.2))

/-- Membership in the crop box. -/
def inCrop (lo hi v : Vox) : Prop :=
  lo.1 ≤ v.1 ∧ v.1 < hi.1 ∧ lo.2.1 ≤ v.2.1 ∧ v.2.1 < hi.2.1 ∧
    lo.2.2 ≤ v.2.2 ∧ v.2.2 < hi.2.2

instance (lo hi v : Vox) : Decidable (inCrop lo hi v) :=
  inferInstanceAs (Decidable (lo.1 ≤ v.1 ∧ v.1 < hi.1 ∧ lo.2.1 ≤ v.2.1 ∧
    v.2.1 < hi.2.1 ∧ lo.2.2 ≤ v.2.2 ∧ v.2.2 < hi.2.2))

/-- `torch.sum(index)` for `index = (prob == id)` over the crop (eval.py lines
83-87): the number of crop voxels whose crop-local probability value equals
the id. -/
def assignedCount (lo hi : Vox) (prob : Vox → ℤ) (kid : ℤ) : ℕ :=
  ((cropCoords lo hi).filter (fun v => prob (v - lo) = kid)).card

/-- Embedding of the write-back step of `skoots.lib.eval.get_instance`
(eval.py lines 86-98): at crop voxels where `prob == id`, write `prob` when
`torch.sum(index) > min_instance_volume` and `0` otherwise; every other voxel
keeps the previous mask value.  `prob` is indexed by crop-local coordinates,
as in the source. -/
def bakeWrite (mask : Vox → ℤ) (lo hi : Vox) (prob : Vox → ℤ) (kid : ℤ)
    (min_instance_volume : ℕ) : Vox → ℤ :=
  fun v =>
    if inCrop lo hi v ∧ prob (v - lo) = kid then
      if assignedCount lo hi prob kid > min_instance_volume then prob (v - lo) else 0
    else mask v

/-- Data of one iteration of the baking loop of `skoots.lib.eval.eval`
(eval.py lines 246-247): one skeleton id with its crop bounds and its
thresholded crop-local probability volume.  The probability crop is a fixed
datum of the job: inside `get_instance` it is computed by
`baked_embed_to_prob(crop, skeleton, sigma)` from the vector crop and the
skeleton only — the `baked` tensor derived from the running mask is never
passed to it — so it does not depend on the instance mask being accumulated. -/
structure BakeJob where
  lo : Vox
  hi : Vox
  prob : Vox → ℤ
  kid : ℤ
  minVolume : ℕ

/-- The voxels a job writes: crop voxels whose probability value equals the
job's id (the boolean index `prob == id` of eval.py line 86). -/
def writesAt (j : BakeJob) (v : Vox) : Prop :=
  inCrop j.lo j.hi v ∧ j.prob (v - j.lo) = j.kid

instance (j : BakeJob) (v : Vox) : Decidable (writesAt j v) :=
  inferInstanceAs (Decidable (inCrop j.lo j.hi v ∧ j.prob (v - j.lo) = j.kid))

/-- The value a job writes at any voxel it writes: the probability value (the
id itself at index positions) when the count clears the minimum volume, `0`
otherwise. -/
def writtenVal (j : BakeJob) (v : Vox) : ℤ :=
  if assignedCount j.lo j.hi j.prob j.kid > j.minVolume then j.prob (v - j.lo) else 0

/-- The sequential baking loop of `skoots.lib.eval.eval` (lines 246-247): fold
the per-id write-back over the list of skeleton ids in processing order. -/
def bake_all (jobs : List BakeJob) (mask : Vox → ℤ) : Vox → ℤ :=
  jobs.foldl (fun m jb => bakeWrite m jb.lo jb.hi jb.prob jb.kid jb.minVolume) mask

/-- Embedding of the crop-bounds computation of `get_instance` (eval.py lines
49-57): per skeleton point, subtract or add the buffer `(50, 50, 10)`, clamp
(`clamp(0)` below, `clamp(0, vectors.shape[i + 1])` above per axis), then
reduce with `min(0)` and `max(0)` over the points.  The reduction over an
empty point set raises, which is the `Except.error` branch. -/
def computeCropBounds (skeleton : List Vox) (vshape : Vox) :
    Except String (Vox × Vox) :=
  match skeleton with
  | [] => Except.error "min(): Expected reduction dim 0 to have non-zero size"
  | s0 :: rest =>
      let lowOf : Vox → Vox := fun s =>
        (max (s.1 - 50) 0, max (s.2.1 - 50) 0, max (s.2.2 - 10) 0)
      let highOf : Vox → Vox := fun s =>
        (min (max (s.1 + 50) 0) vshape.1, min (max (s.2.1 + 50) 0) vshape.2.1,
          min (max (s.2.2 + 10) 0) vshape.2.2)
      Except.ok
        (rest.foldl (fun acc s =>
            (min acc.1 (lowOf s).1, min acc.2.1 (lowOf s).2.1,
              min acc.2.2 (lowOf s).2.2)) (lowOf s0),
         rest.foldl (fun acc s =>
            (max acc.1 (highOf s).1, max acc.2.1 (highOf s).2.1,
              max acc.2.2 (highOf s).2.2)) (highOf s0))

/-- Embedding of `skoots.lib.eval.get_instance` (eval.py lines 26-100).  The
imported `vector_to_embedding` and `baked_embed_to_prob` stages (whose modules
are not part of this source snapshot) are abstracted by the oracle `probOf`,
which yields the thresholded crop-local probability volume for given crop
bounds; it is consulted only after the bounds are computed, so an empty
skeleton fails before anything is written. -/
def get_instance (mask : Vox → ℤ) (vshape : Vox) (skeleton : List Vox)
    (probOf : Vox → Vox → Vox → ℤ) (kid : ℤ) (min_instance_volume : ℕ) :
    Except String (Vox → ℤ) :=
  match computeCropBounds skeleton vshape with
  | Except.error e => Except.error e
  | Except.ok (lo, hi) =>
      Except.ok (bakeWrite mask lo hi (probOf lo hi) kid min_instance_volume)

/-- Coordinate grid: channel `c` of the index mesh holds the `c`-th coordinate
of each voxel (the `(x, y, z)` term of the embedding formula). -/
def indexGrid (c : Fin 3) (v : ℕ × ℕ × ℕ) : ℚ :=
  if c.val = 0 then (v.1 : ℚ) else if c.val = 1 then (v.2.1 : ℚ) else (v.2.2 : ℚ)

/-- Modelled from the spec: `skoots.lib.vector_to_embedding.vector_to_embedding`
is called by `skoots/lib/eval.py` (line 70) but its module is missing from the
source snapshot.  Per spec section 4.2, given a voxel-relative vector field `V`
of shape `[3, X, Y, Z]` and a per-axis scale `S`, the embedding is
`E[:, x, y, z] = (x, y, z) + S * V[:, x, y, z]`: the index grid plus the
scaled vector field, elementwise and stateless. -/
def vector_to_embedding (scale : Fin 3 → ℚ) (vectors : Fin 3 → ℕ × ℕ × ℕ → ℚ) :
    Fin 3 → ℕ × ℕ × ℕ → ℚ :=
  fun c v => indexGrid c v + scale c * vectors c v

/-- Unfolding lemma for `pairsList` on a list with at least two elements. -/
theorem pairsList_cons_cons {α : Type} (a b : α) (t : List α) :
    pairsList (a :: b :: t) = (a, b) :: pairsList (b :: t) := rfl

/-- `pairsList` of a mapped range enumerates the consecutive index pairs. -/
theorem pairsList_map_range {α : Type} (m : ℕ) (f : ℕ → α) :
    pairsList ((List.range m).map f) =
      (List.range (m - 1)).map (fun j => (f j, f (j + 1))) := by
  induction m generalizing f with
  | zero => rfl
  | succ n ih =>
    cases n with
    | zero => rfl
    | succ n2 =>
      have h1 : (List.range (n2 + 2)).map f
          = f 0 :: (List.range (n2 + 1)).map (f ∘ Nat.succ) := by
        rw [List.range_succ_eq_map, List.map_cons, List.map_map]
      have h2 : (List.range (n2 + 1)).map (f ∘ Nat.succ)
          = (f ∘ Nat.succ) 0 :: (List.range n2).map ((f ∘ Nat.succ) ∘ Nat.succ) := by
        rw [List.range_succ_eq_map, List.map_cons, List.map_map]
      calc pairsList ((List.range (n2 + 2)).map f)
          = (f 0, (f ∘ Nat.succ) 0) ::
              pairsList ((List.range (n2 + 1)).map (f ∘ Nat.succ)) := by
            rw [h1, h2, pairsList_cons_cons, ← h2]
        _ = (List.range (n2 + 2 - 1)).map (fun j => (f j, f (j + 1))) := by
            rw [ih (f ∘ Nat.succ)]
            have hidx : n2 + 2 - 1 = n2 + 1 := by omega
            have hidx2 : n2 + 1 - 1 = n2 := by omega
            rw [hidx, hidx2, List.range_succ_eq_map, List.map_cons, List.map_map]
            simp [Function.comp, Nat.succ_eq_add_one]

/-- A `takeWhile` whose predicate holds on every element is the identity. -/
theorem takeWhile_eq_self_of_all {α : Type} (pr : α → Bool) :
    ∀ l : List α, (∀ x ∈ l, pr x = true) → l.takeWhile pr = l
  | [], _ => rfl
  | a :: t, h => by
    have ha : pr a = true := h a (by simp)
    have ht := takeWhile_eq_self_of_all pr t (fun x hx => h x (by simp [hx]))
    simp [List.takeWhile_cons, ha, ht]

/-- Bounds for the ceiling division used by `arangeZ`: writing `m` for the
number of arange entries below `X` with step `e`, we have `X ≤ e * m` and
`e * m ≤ X + e - 1`. -/
theorem ceil_bounds (e X : ℤ) (he : 1 ≤ e) (hX : 1 ≤ X) :
    X ≤ e * (((X.toNat + e.toNat - 1) / e.toNat : ℕ) : ℤ) ∧
      e * (((X.toNat + e.toNat - 1) / e.toNat : ℕ) : ℤ) ≤ X + e - 1 := by
  have hkZ : ((e.toNat : ℕ) : ℤ) = e := Int.toNat_of_nonneg (by omega)
  have hnZ : ((X.toNat : ℕ) : ℤ) = X := Int.toNat_of_nonneg (by omega)
  have hdm : e.toNat * ((X.toNat + e.toNat - 1) / e.toNat) +
      (X.toNat + e.toNat - 1) % e.toNat = X.toNat + e.toNat - 1 := Nat.div_add_mod _ _
  have hmod : (X.toNat + e.toNat - 1) % e.toNat < e.toNat := Nat.mod_lt _ (by omega)
  have h1 : X.toNat ≤ e.toNat * ((X.toNat + e.toNat - 1) / e.toNat) ∧
      e.toNat * ((X.toNat + e.toNat - 1) / e.toNat) ≤ X.toNat + e.toNat - 1 := by
    generalize e.toNat * ((X.toNat + e.toNat - 1) / e.toNat) = km at hdm ⊢
    omega
  have hcast : ((e.toNat * ((X.toNat + e.toNat - 1) / e.toNat) : ℕ) : ℤ)
      = e * (((X.toNat + e.toNat - 1) / e.toNat : ℕ) : ℤ) := by
    push_cast [hkZ]
    ring
  constructor
  · have h2 : ((X.toNat : ℕ) : ℤ)
        ≤ ((e.toNat * ((X.toNat + e.toNat - 1) / e.toNat) : ℕ) : ℤ) :=
      Nat.cast_le.mpr h1.1
    rw [hcast, hnZ] at h2
    exact h2
  · have h2 : ((e.toNat * ((X.toNat + e.toNat - 1) / e.toNat) : ℕ) : ℤ)
        ≤ ((X.toNat + e.toNat - 1 : ℕ) : ℤ) := Nat.cast_le.mpr h1.2
    rw [hcast] at h2
    have h3 : ((X.toNat + e.toNat - 1 : ℕ) : ℤ) = X + e - 1 := by omega
    linarith

/-- Bounds for the flooring division locating the tile that contains an
index. -/
theorem div_bounds (i e : ℤ) (hi : 0 ≤ i) (he : 1 ≤ e) :
    e * ((i.toNat / e.toNat : ℕ) : ℤ) ≤ i ∧
      i < e * (((i.toNat / e.toNat : ℕ) : ℤ) + 1) := by
  have hkZ : ((e.toNat : ℕ) : ℤ) = e := Int.toNat_of_nonneg (by omega)
  have hiZ : ((i.toNat : ℕ) : ℤ) = i := Int.toNat_of_nonneg hi
  have hdm : e.toNat * (i.toNat / e.toNat) + i.toNat % e.toNat = i.toNat :=
    Nat.div_add_mod _ _
  have hmod : i.toNat % e.toNat < e.toNat := Nat.mod_lt _ (by omega)
  have h1 : e.toNat * (i.toNat / e.toNat) ≤ i.toNat ∧
      i.toNat < e.toNat * (i.toNat / e.toNat) + e.toNat := by
    generalize e.toNat * (i.toNat / e.toNat) = q at hdm ⊢
    omega
  have hcast : ((e.toNat * (i.toNat / e.toNat) : ℕ) : ℤ)
      = e * ((i.toNat / e.toNat : ℕ) : ℤ) := by
    push_cast [hkZ]
    ring
  constructor
  · have h2 : ((e.toNat * (i.toNat / e.toNat) : ℕ) : ℤ) ≤ ((i.toNat : ℕ) : ℤ) :=
      Nat.cast_le.mpr h1.1
    rw [hcast, hiZ] at h2
    exact h2
  · have h2 : ((i.toNat : ℕ) : ℤ)
        < ((e.toNat * (i.toNat / e.toNat) + e.toNat : ℕ) : ℤ) :=
      Nat.cast_lt.mpr h1.2
    have h4 : ((e.toNat * (i.toNat / e.toNat) + e.toNat : ℕ) : ℤ)
        = e * ((i.toNat / e.toNat : ℕ) : ℤ) + e := by
      rw [Nat.cast_add, Nat.cast_mul, hkZ]
    rw [h4, hiZ] at h2
    have h3 : e * (((i.toNat / e.toNat : ℕ) : ℤ) + 1)
        = e * ((i.toNat / e.toNat : ℕ) : ℤ) + e := by ring
    rw [h3]
    exact h2

/-- The arange entry count is at least 2 once the axis is strictly longer than
the window. -/
theorem arange_count_ge_two (e X : ℤ) (he : 1 ≤ e) (heX : e < X) :
    2 ≤ (X.toNat + e.toNat - 1) / e.toNat := by
  have hcb := ceil_bounds e X he (by omega)
  by_contra hcon
  push_neg at hcon
  have hle : (((X.toNat + e.toNat - 1) / e.toNat : ℕ) : ℤ) ≤ 1 := by
    exact_mod_cast Nat.lt_succ_iff.mp hcon
  have h2 : e * (((X.toNat + e.toNat - 1) / e.toNat : ℕ) : ℤ) ≤ e * 1 :=
    mul_le_mul_of_nonneg_left hle (by omega)
  have h3 := hcb.1
  linarith

/-- Characterization of `calculate_indexes` on its main path (window fits the
axis with room to spare and the padded length is `axis + 2 * halo`): the loop
emits the regularly spaced windows of width `window + 2 * halo`, and one extra
window snapped to the padded boundary is appended. -/
theorem calculate_indexes_main (p e X : ℤ) (hp : 0 ≤ p) (he : 1 ≤ e)
    (hguard : e + 2 * p ≤ X) (heX : e < X) :
    calculate_indexes p e X (X + 2 * p) =
      Except.ok
        (((List.range ((X.toNat + e.toNat - 1) / e.toNat - 1)).map
            (fun j : ℕ => ((e * (j : ℤ), e * ((j : ℤ) + 1) - 1 + 2 * p) : ℤ × ℤ))) ++
          [(X + 2 * p - (e + p * 2), X + 2 * p - 1)]) := by
  have hcb := ceil_bounds e X he (by omega)
  have hm2 := arange_count_ge_two e X he heX
  set M := (X.toNat + e.toNat - 1) / e.toNat with hMdef
  have hcand : (pairsList (arangeZ X e)).map (fun q => (q.1, q.2 - 1 + 2 * p))
      = (List.range (M - 1)).map
        (fun j : ℕ => ((e * (j : ℤ), e * ((j : ℤ) + 1) - 1 + 2 * p) : ℤ × ℤ)) := by
    rw [show arangeZ X e = (List.range M).map (fun i : ℕ => e * (i : ℤ)) from rfl]
    rw [pairsList_map_range, List.map_map]
    apply List.map_congr_left
    intro j hj
    simp only [Function.comp]
    have hc : ((j + 1 : ℕ) : ℤ) = (j : ℤ) + 1 := by push_cast; ring
    rw [hc]
  have hall : ∀ w ∈ (List.range (M - 1)).map
      (fun j : ℕ => ((e * (j : ℤ), e * ((j : ℤ) + 1) - 1 + 2 * p) : ℤ × ℤ)),
      (fun w : ℤ × ℤ => decide (w.2 < X + 2 * p)) w = true := by
    intro w hw
    simp only [List.mem_map, List.mem_range] at hw
    obtain ⟨j, hj, rfl⟩ := hw
    simp only [decide_eq_true_eq]
    have hj1 : (j : ℤ) + 1 ≤ ((M : ℕ) : ℤ) - 1 := by omega
    have h4 : e * ((j : ℤ) + 1) ≤ e * (((M : ℕ) : ℤ) - 1) :=
      mul_le_mul_of_nonneg_left hj1 (by omega)
    have h5 : e * (((M : ℕ) : ℤ) - 1) = e * ((M : ℕ) : ℤ) - e := by ring
    have h6 := hcb.2
    linarith
  have hner : ((List.range (M - 1)).map
      (fun j : ℕ => ((e * (j : ℤ), e * ((j : ℤ) + 1) - 1 + 2 * p) : ℤ × ℤ))) ≠ [] := by
    intro hc
    have hlen := congrArg List.length hc
    simp only [List.length_map, List.length_range, List.length_nil] at hlen
    omega
  have hg1 : ¬ (e + 2 * p > X) := by omega
  have hg2 : ¬ (e ≤ 0 ∨ X < 0) := by omega
  simp only [calculate_indexes, if_neg hg1, if_neg hg2]
  rw [hcand, takeWhile_eq_self_of_all _ _ hall]
  have hemp : ((List.range (M - 1)).map
      (fun j : ℕ => ((e * (j : ℤ), e * ((j : ℤ) + 1) - 1 + 2 * p) : ℤ × ℤ))).isEmpty
      = false := by
    cases hEq : (List.range (M - 1)).map
        (fun j : ℕ => ((e * (j : ℤ), e * ((j : ℤ) + 1) - 1 + 2 * p) : ℤ × ℤ)) with
    | nil => exact absurd hEq hner
    | cons a t => rfl
  rw [hemp]
  simp

/-- C1 (amended): on the main tiling path (window not larger than the axis,
padded length `axis + 2 * halo`), the halo-trimmed interiors of the returned
windows cover the unpadded axis exactly — every axis index is covered and no
covered index lies outside the axis; single coverage can fail near the
boundary, where the extra snapped window may overlap the regular tiling. -/
theorem c1_tiling_coverage (p e X : ℤ) (hp : 0 ≤ p) (he : 1 ≤ e)
    (hguard : e + 2 * p ≤ X) (heX : e < X) :
    ∃ l, calculate_indexes p e X (X + 2 * p) = Except.ok l ∧
      ∀ i : ℤ, (∃ w ∈ l, trimmedCovers p w i) ↔ (0 ≤ i ∧ i < X) := by
  refine ⟨_, calculate_indexes_main p e X hp he hguard heX, ?_⟩
  intro i
  have hcb := ceil_bounds e X he (by omega)
  have hm2 := arange_count_ge_two e X he heX
  set M := (X.toNat + e.toNat - 1) / e.toNat with hMdef
  constructor
  · rintro ⟨w, hw, hcov⟩
    rcases List.mem_append.mp hw with hw | hw
    · simp only [List.mem_map, List.mem_range] at hw
      obtain ⟨j, hj, rfl⟩ := hw
      have h1 : e * (j : ℤ) ≤ i := hcov.1
      have h2 : i ≤ e * ((j : ℤ) + 1) - 1 + 2 * p - 2 * p := hcov.2
      have hej : (0 : ℤ) ≤ e * (j : ℤ) := mul_nonneg (by omega) (by omega)
      have hj1 : (j : ℤ) + 1 ≤ ((M : ℕ) : ℤ) - 1 := by omega
      have h4 : e * ((j : ℤ) + 1) ≤ e * (((M : ℕ) : ℤ) - 1) :=
        mul_le_mul_of_nonneg_left hj1 (by omega)
      have h5 : e * (((M : ℕ) : ℤ) - 1) = e * ((M : ℕ) : ℤ) - e := by ring
      have h6 := hcb.2
      constructor
      · linarith
      · linarith
    · simp only [List.mem_singleton] at hw
      subst hw
      have h1 : X + 2 * p - (e + p * 2) ≤ i := hcov.1
      have h2 : i ≤ X + 2 * p - 1 - 2 * p := hcov.2
      constructor
      · omega
      · omega
  · rintro ⟨h0, hX⟩
    by_cases hc : X - e ≤ i
    · refine ⟨(X + 2 * p - (e + p * 2), X + 2 * p - 1), ?_, ?_⟩
      · exact List.mem_append.mpr (Or.inr (List.mem_singleton.mpr rfl))
      · simp only [trimmedCovers]
        constructor
        · omega
        · omega
    · push_neg at hc
      have hdb := div_bounds i e h0 he
      have hjm : i.toNat / e.toNat < M - 1 := by
        have h1 := hdb.1
        have h2 := hcb.1
        have h5 : e * (((M : ℕ) : ℤ) - 1) = e * ((M : ℕ) : ℤ) - e := by ring
        have h3 : e * ((i.toNat / e.toNat : ℕ) : ℤ) < e * (((M : ℕ) : ℤ) - 1) := by
          linarith
        have h4 : ((i.toNat / e.toNat : ℕ) : ℤ) < ((M : ℕ) : ℤ) - 1 :=
          lt_of_mul_lt_mul_left h3 (by omega)
        omega
      refine ⟨(e * ((i.toNat / e.toNat : ℕ) : ℤ),
          e * (((i.toNat / e.toNat : ℕ) : ℤ) + 1) - 1 + 2 * p), ?_, ?_⟩
      · refine List.mem_append.mpr (Or.inl ?_)
        simp only [List.mem_map, List.mem_range]
        exact ⟨i.toNat / e.toNat, hjm, rfl⟩
      · simp only [trimmedCovers]
        constructor
        · exact hdb.1
        · have h2 := hdb.2
          linarith

/-- C1 witness: concrete instantiation at halo 1, window 4, axis length 10,
with a direct evaluation of the returned windows. -/
theorem c1_tiling_coverage_witness :
    ((0 : ℤ) ≤ 1 ∧ (1 : ℤ) ≤ 4 ∧ (4 : ℤ) + 2 * 1 ≤ 10 ∧ (4 : ℤ) < 10) ∧
    (∃ l, calculate_indexes 1 4 10 (10 + 2 * 1) = Except.ok l ∧
      ∀ i : ℤ, (∃ w ∈ l, trimmedCovers 1 w i) ↔ (0 ≤ i ∧ i < 10)) ∧
    calculate_indexes 1 4 10 12 = Except.ok [(0, 5), (4, 9), (6, 11)] :=
  ⟨⟨by norm_num, by norm_num, by norm_num, by norm_num⟩,
   c1_tiling_coverage 1 4 10 (by norm_num) (by norm_num) (by norm_num)
     (by norm_num),
   rfl⟩

/-- C4: on the main tiling path, `calculate_indexes` always appends one extra
final window snapped to end exactly at the last padded index, and that window
has the same inclusive width `window + 2 * halo` as every regular window, so
the returned sequence always reaches the boundary (possibly overlapping the
preceding windows). -/
theorem c4_final_window (p e X : ℤ) (hp : 0 ≤ p) (he : 1 ≤ e)
    (hguard : e + 2 * p ≤ X) (heX : e < X) :
    ∃ W : List (ℤ × ℤ),
      calculate_indexes p e X (X + 2 * p) =
        Except.ok (W ++ [(X + 2 * p - (e + p * 2), X + 2 * p - 1)]) ∧
      (∀ w ∈ W, w.2 - w.1 + 1 = e + 2 * p) ∧
      (X + 2 * p - 1) - (X + 2 * p - (e + p * 2)) + 1 = e + 2 * p := by
  refine ⟨_, calculate_indexes_main p e X hp he hguard heX, ?_, by ring⟩
  intro w hw
  simp only [List.mem_map, List.mem_range] at hw
  obtain ⟨j, hj, rfl⟩ := hw
  show e * ((j : ℤ) + 1) - 1 + 2 * p - e * (j : ℤ) + 1 = e + 2 * p
  ring

/-- C4 witness: concrete instantiation at halo 1, window 2, axis length 5,
with a direct evaluation of the returned windows: the regular windows `(0,3)`
and `(2,5)` and the snapped final window `(3,6)` all have width 4 and the
final one ends at the last padded index 6. -/
theorem c4_final_window_witness :
    ((0 : ℤ) ≤ 1 ∧ (1 : ℤ) ≤ 2 ∧ (2 : ℤ) + 2 * 1 ≤ 5 ∧ (2 : ℤ) < 5) ∧
    (∃ W : List (ℤ × ℤ),
      calculate_indexes 1 2 5 (5 + 2 * 1) =
        Except.ok (W ++ [(5 + 2 * 1 - (2 + 1 * 2), 5 + 2 * 1 - 1)]) ∧
      (∀ w ∈ W, w.2 - w.1 + 1 = 2 + 2 * 1) ∧
      ((5 : ℤ) + 2 * 1 - 1) - (5 + 2 * 1 - (2 + 1 * 2)) + 1 = 2 + 2 * 1) ∧
    calculate_indexes 1 2 5 7 = Except.ok [(0, 3), (2, 5), (3, 6)] :=
  ⟨⟨by norm_num, by norm_num, by norm_num, by norm_num⟩,
   c4_final_window 1 2 5 (by norm_num) (by norm_num) (by norm_num) (by norm_num),
   rfl⟩

/-- A job whose write condition holds at `v` writes its value there, whatever
the previous mask was. -/
theorem bakeWrite_of_writesAt (j : BakeJob) (v : Vox) (s : Vox → ℤ)
    (h : writesAt j v) :
    bakeWrite s j.lo j.hi j.prob j.kid j.minVolume v = writtenVal j v := by
  simp only [bakeWrite, writtenVal]
  exact if_pos (show inCrop j.lo j.hi v ∧ j.prob (v - j.lo) = j.kid from h)

/-- A job whose write condition fails at `v` leaves the mask value there. -/
theorem bakeWrite_of_not_writesAt (j : BakeJob) (v : Vox) (s : Vox → ℤ)
    (h : ¬ writesAt j v) :
    bakeWrite s j.lo j.hi j.prob j.kid j.minVolume v = s v := by
  simp only [bakeWrite]
  exact if_neg (show ¬ (inCrop j.lo j.hi v ∧ j.prob (v - j.lo) = j.kid) from h)

/-- A run of jobs none of which writes at `v` leaves the value at `v`
unchanged. -/
theorem bake_all_of_no_writes (v : Vox) :
    ∀ (l : List BakeJob) (s : Vox → ℤ), (∀ j2 ∈ l, ¬ writesAt j2 v) →
      bake_all l s v = s v := by
  intro l
  induction l with
  | nil => intro s _; rfl
  | cons a t ih =>
    intro s hst
    show bake_all t (bakeWrite s a.lo a.hi a.prob a.kid a.minVolume) v = s v
    rw [ih _ (fun x hx => hst x (List.mem_cons_of_mem a hx))]
    exact bakeWrite_of_not_writesAt a v s (hst a (List.mem_cons_self a t))

/-- C7: the sequential baking loop is last-writer-wins — if job `j` writes at
voxel `v` and no later job writes there, the final volume holds `j`'s value at
`v`, independently of everything written before; and re-running the loop on an
equal initial mask reproduces the identical output. -/
theorem c7_last_writer_wins (l1 l2 : List BakeJob) (j : BakeJob)
    (mask : Vox → ℤ) (v : Vox) (hw : writesAt j v)
    (hafter : ∀ j2 ∈ l2, ¬ writesAt j2 v) :
    bake_all (l1 ++ j :: l2) mask v = writtenVal j v ∧
      ∀ mask2 : Vox → ℤ, (∀ u, mask2 u = mask u) →
        bake_all (l1 ++ j :: l2) mask2 v = bake_all (l1 ++ j :: l2) mask v := by
  constructor
  · show (l1 ++ j :: l2).foldl
        (fun m jb => bakeWrite m jb.lo jb.hi jb.prob jb.kid jb.minVolume) mask v
        = writtenVal j v
    rw [List.foldl_append, List.foldl_cons]
    have h1 : bake_all l2
        (bakeWrite (bake_all l1 mask) j.lo j.hi j.prob j.kid j.minVolume) v
        = writtenVal j v := by
      rw [bake_all_of_no_writes v l2 _ hafter]
      exact bakeWrite_of_writesAt j v _ hw
    exact h1
  · intro mask2 hm
    have : mask2 = mask := funext hm
    rw [this]

/-- C7 witness: two jobs with the same one-voxel crop and passing counts; the
final value at the shared voxel is the one written by the later job (id 2). -/
theorem c7_last_writer_wins_witness :
    writesAt ⟨(0, 0, 0), (1, 1, 1), fun _ => 2, 2, 0⟩ ((0 : ℤ), (0 : ℤ), (0 : ℤ)) ∧
    (bake_all [⟨(0, 0, 0), (1, 1, 1), fun _ => 1, 1, 0⟩,
        ⟨(0, 0, 0), (1, 1, 1), fun _ => 2, 2, 0⟩] (fun _ => 0) (0, 0, 0) =
      writtenVal ⟨(0, 0, 0), (1, 1, 1), fun _ => 2, 2, 0⟩ (0, 0, 0) ∧
      ∀ mask2 : Vox → ℤ, (∀ u, mask2 u = (fun _ => (0 : ℤ)) u) →
        bake_all [⟨(0, 0, 0), (1, 1, 1), fun _ => 1, 1, 0⟩,
            ⟨(0, 0, 0), (1, 1, 1), fun _ => 2, 2, 0⟩] mask2 (0, 0, 0) =
          bake_all [⟨(0, 0, 0), (1, 1, 1), fun _ => 1, 1, 0⟩,
              ⟨(0, 0, 0), (1, 1, 1), fun _ => 2, 2, 0⟩] (fun _ => 0) (0, 0, 0)) ∧
    writtenVal ⟨(0, 0, 0), (1, 1, 1), fun _ => 2, 2, 0⟩ (0, 0, 0) = 2 :=
  ⟨by decide,
   c7_last_writer_wins [⟨(0, 0, 0), (1, 1, 1), fun _ => 1, 1, 0⟩] []
     ⟨(0, 0, 0), (1, 1, 1), fun _ => 2, 2, 0⟩ (fun _ => 0) (0, 0, 0)
     (by decide) (by intro j2 h2; exact absurd h2 (List.not_mem_nil j2)),
   by decide⟩

/-- `splitLast3` of a list with three explicit trailing elements. -/
theorem splitLast3_append (l : List ℕ) (a b c : ℕ) :
    splitLast3 (l ++ [a, b, c]) = some (l, (a, b, c)) := by
  simp [splitLast3, List.reverse_append]

/-- C10: for tensors with at least three dimensions each, the two tensors
returned by `crop_to_identical_size` both have their last three (spatial)
sizes equal to the elementwise minimum of the corresponding sizes of the
inputs, with all leading dimensions unchanged; a first argument with fewer
than three dimensions raises the `RuntimeError` of the source. -/
theorem c10_crop_to_identical_size :
    (∀ (la lb : List ℕ) (a3 a2 a1 b3 b2 b1 : ℕ),
      crop_to_identical_size (la ++ [a3, a2, a1]) (lb ++ [b3, b2, b1]) =
        Except.ok (la ++ [min a3 b3, min a2 b2, min a1 b1],
          lb ++ [min a3 b3, min a2 b2, min a1 b1])) ∧
    (∀ a b : List ℕ, a.length < 3 →
      crop_to_identical_size a b =
        Except.error
          "Only supports tensors with minimum 3dimmensions and shape [..., X, Y, Z]") := by
  constructor
  · intro la lb a3 a2 a1 b3 b2 b1
    have hlen : ¬ (la ++ [a3, a2, a1]).length < 3 := by
      simp [List.length_append]
    have hcropA : _crop3d (la ++ [a3, a2, a1]) 0 0 0 b3 b2 b1
        = la ++ [min a3 b3, min a2 b2, min a1 b1] := by
      simp only [_crop3d, splitLast3_append]
      norm_num
    have hcropB : _crop3d (lb ++ [b3, b2, b1]) 0 0 0
          (min a3 b3) (min a2 b2) (min a1 b1)
        = lb ++ [min a3 b3, min a2 b2, min a1 b1] := by
      simp only [_crop3d, splitLast3_append]
      norm_num
    simp only [crop_to_identical_size, if_neg hlen, splitLast3_append,
      hcropA, hcropB]
  · intro a b h
    simp only [crop_to_identical_size, if_pos h]

/-- C10 witness: concrete shapes — `[4, 5, 6, 7]` against `[9, 2, 8]` crops
both to trailing sizes `[5, 2, 7]` (the leading `4` untouched), and a
1-dimensional first argument raises the `RuntimeError`. -/
theorem c10_crop_to_identical_size_witness :
    crop_to_identical_size [4, 5, 6, 7] [9, 2, 8] =
      Except.ok ([4, 5, 2, 7], [5, 2, 7]) ∧
    ([5] : List ℕ).length < 3 ∧
    crop_to_identical_size [5] [1, 2, 3] =
      Except.error
        "Only supports tensors with minimum 3dimmensions and shape [..., X, Y, Z]" :=
  ⟨(c10_crop_to_identical_size.1 [4] [] 5 6 7 9 2 8).trans rfl,
   by decide,
   c10_crop_to_identical_size.2 [5] [1, 2, 3] (by decide)⟩

/-- C3 (amended): when `window + 2 * halo > axis_length`, `calculate_indexes`
returns exactly one window, `(0, axis_length - 1)`, covering every index of
the axis; note the window itself spans the axis, while its halo-trimmed
interior does not once the halo is positive. -/
theorem c3_single_window (p e X P : ℤ) (h : e + 2 * p > X) :
    calculate_indexes p e X P = Except.ok [(0, X - 1)] ∧
      ∀ i : ℤ, 0 ≤ i → i < X → 0 ≤ i ∧ i ≤ X - 1 := by
  constructor
  · unfold calculate_indexes
    rw [if_pos h]
  · intro i h1 h2
    omega

/-- C3 witness: concrete instantiation at halo 2, window 10, axis length 5
(padded length 9), together with a direct evaluation of the result. -/
theorem c3_single_window_witness :
    ((10 : ℤ) + 2 * 2 > 5) ∧
    (calculate_indexes 2 10 5 9 = Except.ok [(0, 5 - 1)] ∧
      ∀ i : ℤ, 0 ≤ i → i < 5 → 0 ≤ i ∧ i ≤ 5 - 1) ∧
    calculate_indexes 2 10 5 9 = Except.ok [(0, 4)] :=
  ⟨by norm_num, c3_single_window 2 10 5 9 (by norm_num), rfl⟩

/-- C3 counterexample: at halo 2, window 10, axis length 5 the single returned
window is `(0, 4)`, but its halo-trimmed interior does not cover axis index 4,
so the claim that the trimmed interior covers every index of the axis fails. -/
theorem c3_counterexample :
    ((10 : ℤ) + 2 * 2 > 5) ∧
    calculate_indexes 2 10 5 9 = Except.ok [(0, 4)] ∧
    ((0 : ℤ) ≤ 4 ∧ (4 : ℤ) < 5) ∧
    ¬ trimmedCovers 2 (0, 4) 4 :=
  ⟨by norm_num, rfl, by norm_num, by decide⟩

/-- C1 counterexample: with halo 1 and window 2 on an axis of length 5 (padded
7) — a valid configuration, the window is non-degenerate and halo ≤ size / 2 —
the returned windows are `(0,3), (2,5), (3,6)`, and original-axis index 3 lies
in the trimmed interior of both `(2,5)` and `(3,6)`: the trimmed interiors do
not tile the axis without overlap. -/
theorem c1_counterexample :
    ((0 : ℤ) ≤ 1 ∧ (1 : ℤ) ≤ 2 ∧ 2 * 1 ≤ (2 : ℤ) ∧ (2 : ℤ) + 2 * 1 ≤ 5) ∧
    calculate_indexes 1 2 5 7 = Except.ok [(0, 3), (2, 5), (3, 6)] ∧
    trimmedCovers 1 (2, 5) 3 ∧ trimmedCovers 1 (3, 6) 3 ∧
    ((2 : ℤ), (5 : ℤ)) ≠ ((3 : ℤ), (6 : ℤ)) :=
  ⟨by norm_num, rfl, by decide, by decide, by decide⟩

/-- C5: the embedding transform is pure and elementwise — for every scale `S`,
vector field `V` and voxel `(x, y, z)`, each channel of the produced embedding
field equals the voxel's own coordinate plus the per-axis scale times the
vector value at that voxel. -/
theorem c5_embedding_elementwise (scale : Fin 3 → ℚ)
    (vectors : Fin 3 → ℕ × ℕ × ℕ → ℚ) (x y z : ℕ) :
    vector_to_embedding scale vectors 0 (x, y, z) =
        (x : ℚ) + scale 0 * vectors 0 (x, y, z) ∧
    vector_to_embedding scale vectors 1 (x, y, z) =
        (y : ℚ) + scale 1 * vectors 1 (x, y, z) ∧
    vector_to_embedding scale vectors 2 (x, y, z) =
        (z : ℚ) + scale 2 * vectors 2 (x, y, z) :=
  ⟨rfl, rfl, rfl⟩

/-- C6: for the four supported dtype strings, `get_dtype_offset` returns the
fixed divisors 256, 65536, 4096 and 1; for an unsupported dtype string with a
positive image maximum it returns 256 when the maximum is at most 256 and the
maximum itself otherwise. -/
theorem c6_dtype_offset :
    (∀ mx : Option ℚ,
      get_dtype_offset "uint8" mx = some 256 ∧
      get_dtype_offset "uint16" mx = some 65536 ∧
      get_dtype_offset "uint12" mx = some 4096 ∧
      get_dtype_offset "float64" mx = some 1) ∧
    (∀ (d : String) (m : ℚ),
      d ≠ "uint16" → d ≠ "uint8" → d ≠ "uint12" → d ≠ "float64" → 0 < m →
      get_dtype_offset d (some m) = some (if m ≤ 256 then 256 else m)) := by
  constructor
  · intro mx
    refine ⟨?_, ?_, ?_, ?_⟩ <;>
      norm_num [get_dtype_offset,
        show ("uint8" : String) ≠ "uint16" from by decide,
        show ("uint12" : String) ≠ "uint16" from by decide,
        show ("uint12" : String) ≠ "uint8" from by decide,
        show ("float64" : String) ≠ "uint16" from by decide,
        show ("float64" : String) ≠ "uint8" from by decide,
        show ("float64" : String) ≠ "uint12" from by decide]
  · intro d m h1 h2 h3 h4 hm
    simp only [get_dtype_offset, if_neg h1, if_neg h2, if_neg h3, if_neg h4]
    rw [if_neg (Ne.symm (ne_of_lt hm))]
    split_ifs <;> rfl

/-- C6 witness: the supported branch at dtype uint8 and the inferred-scale
branch at the unsupported dtype int32 with image maximum 300. -/
theorem c6_dtype_offset_witness :
    get_dtype_offset "uint8" none = some 256 ∧
    (("int32" : String) ≠ "uint16" ∧ (0 : ℚ) < 300) ∧
    get_dtype_offset "int32" (some 300) = some 300 := by
  refine ⟨(c6_dtype_offset.1 none).1, ⟨by decide, by norm_num⟩, ?_⟩
  have h := c6_dtype_offset.2 "int32" 300 (by decide) (by decide) (by decide)
    (by decide) (by norm_num)
  rw [h]
  norm_num

/-- C9: for an unsupported dtype string with no image maximum, or with an
image maximum of zero (falsy in Python), `get_dtype_offset` returns `none`;
conversely a scale is returned only for a supported dtype or a truthy
(nonzero) image maximum. -/
theorem c9_unsupported_none :
    (∀ d : String, d ≠ "uint16" → d ≠ "uint8" → d ≠ "uint12" → d ≠ "float64" →
      get_dtype_offset d none = none ∧ get_dtype_offset d (some 0) = none) ∧
    (∀ (d : String) (mx : Option ℚ), (get_dtype_offset d mx).isSome →
      (d = "uint16" ∨ d = "uint8" ∨ d = "uint12" ∨ d = "float64") ∨
        ∃ q, mx = some q ∧ q ≠ 0) := by
  constructor
  · intro d h1 h2 h3 h4
    constructor
    · simp [get_dtype_offset, h1, h2, h3, h4]
    · simp [get_dtype_offset, h1, h2, h3, h4]
  · intro d mx h
    by_cases h1 : d = "uint16"
    · exact Or.inl (Or.inl h1)
    by_cases h2 : d = "uint8"
    · exact Or.inl (Or.inr (Or.inl h2))
    by_cases h3 : d = "uint12"
    · exact Or.inl (Or.inr (Or.inr (Or.inl h3)))
    by_cases h4 : d = "float64"
    · exact Or.inl (Or.inr (Or.inr (Or.inr h4)))
    right
    cases mx with
    | none => simp [get_dtype_offset, h1, h2, h3, h4] at h
    | some q =>
      by_cases hq : q = 0
      · subst hq
        simp [get_dtype_offset, h1, h2, h3, h4] at h
      · exact ⟨q, rfl, hq⟩

/-- C9 witness: the unsupported dtype float32 yields `none` both with no
image maximum and with a zero image maximum. -/
theorem c9_unsupported_none_witness :
    (("float32" : String) ≠ "uint16" ∧ ("float32" : String) ≠ "uint8" ∧
      ("float32" : String) ≠ "uint12" ∧ ("float32" : String) ≠ "float64") ∧
    get_dtype_offset "float32" none = none ∧
    get_dtype_offset "float32" (some 0) = none :=
  ⟨⟨by decide, by decide, by decide, by decide⟩,
   (c9_unsupported_none.1 "float32" (by decide) (by decide) (by decide)
      (by decide)).1,
   (c9_unsupported_none.1 "float32" (by decide) (by decide) (by decide)
      (by decide)).2⟩

/-- C8: invoking the baker with an empty skeleton coordinate set fails fast
with the reduction error raised by computing the crop bounds, before any
probability is computed or any voxel of the output volume is produced. -/
theorem c8_empty_skeleton_error (mask : Vox → ℤ) (vshape : Vox)
    (probOf : Vox → Vox → Vox → ℤ) (kid : ℤ) (minVolume : ℕ) :
    get_instance mask vshape [] probOf kid minVolume =
      Except.error "min(): Expected reduction dim 0 to have non-zero size" := rfl

/-- C2 (failing input for the code bug): a candidate whose assigned-voxel
count exactly equals `min_instance_volume` is discarded by the code — the
strict comparison `torch.sum(index) > min_instance_volume` zeroes it — while
the claim and the function's own docstring ("rejects instances smaller than
this param") require it to be kept.  Here the single-voxel skeleton id 7 gets
exactly 1 assigned voxel against threshold 1, and the resulting mask is
identically zero: the id is absent. -/
theorem c2_threshold_equal_discarded :
    ∃ f, get_instance (fun _ => 0) (1, 1, 1) [((0 : ℤ), (0 : ℤ), (0 : ℤ))]
        (fun _ _ _ => 7) 7 1 = Except.ok f ∧
      assignedCount (0, 0, 0) (1, 1, 1) (fun _ => 7) 7 = 1 ∧
      ∀ v, f v = 0 := by
  refine ⟨_, rfl, by decide, ?_⟩
  intro v
  simp only [bakeWrite]
  split_ifs with h1 h2
  · exact absurd h2 (by decide)
  · rfl
  · rfl

end Skoots
